import Mathlib

/-! # Verification of the WOG balance bot (`wog_bot.py`)

A shallow embedding of the balance-reconciliation program in `wog_bot.py`.

Python `Decimal` values are modelled by `PyDec`: exact rationals plus the
special values `NaN`, `sNaN` and signed infinity, with the default-context
trap behaviour (ordering comparisons with a NaN raise `InvalidOperation`,
arithmetic on a quiet NaN is quiet, signalling NaN raises).  Python objects
that can appear in the JSON payloads are modelled by `JVal` (null, string,
integer, boolean).  Exceptions are modelled with `Except PyExc`, where
`PyExc` distinguishes the exception classes the program catches
(`requests.RequestException`, `ValueError`, `RuntimeError`,
`decimal.InvalidOperation`).

The observable behaviour of one run of `main` is the list of `Event`s it
emits: the two remote calls, the log lines, and the outbound alert message.
Remote interactions are modelled by `Resp`, an environment-supplied outcome
of one HTTP exchange (network/HTTP error, malformed JSON body, API status
other than "0", or a payload).
-/

/-! ## Python string primitives -/

/-- Whitespace for Python `str.strip` / `str.split` (the characters relevant
to this program; all are treated as whitespace by Python). -/
def pyWS (c : Char) : Bool :=
  c = ' ' || c = '\t' || c = '\n' || c = '\r' || c = '\x0b' || c = '\x0c' ||
  c = '\x1c' || c = '\x1d' || c = '\x1e' || c = '\x1f' || c = '\x85' || c = '\u00A0'

/-- Python `str.strip()`. -/
def pyStrip (l : List Char) : List Char :=
  ((l.dropWhile pyWS).reverse.dropWhile pyWS).reverse

/-- Python `str.lower()` on the alphabets this program manipulates
(ASCII plus the Cyrillic letters of the keyword lists). -/
def pyLowerChar (c : Char) : Char :=
  let n := c.toNat
  if 65 ≤ n ∧ n ≤ 90 then Char.ofNat (n + 32)
  else if 1040 ≤ n ∧ n ≤ 1071 then Char.ofNat (n + 32)
  else if n = 1025 then 'ё'
  else if n = 1030 then 'і'
  else if n = 1031 then 'ї'
  else if n = 1028 then 'є'
  else if n = 1168 then 'ґ'
  else c

/-- Python `str.upper()` on the same alphabets. -/
def pyUpperChar (c : Char) : Char :=
  let n := c.toNat
  if 97 ≤ n ∧ n ≤ 122 then Char.ofNat (n - 32)
  else if 1072 ≤ n ∧ n ≤ 1103 then Char.ofNat (n - 32)
  else if n = 1105 then 'Ё'
  else if n = 1110 then 'І'
  else if n = 1111 then 'Ї'
  else if n = 1108 then 'Є'
  else if n = 1169 then 'Ґ'
  else c

/-- Test that `needle` occurs at the start of `hay` (Python `str.startswith`). -/
def startsL : List Char → List Char → Bool
  | [], _ => true
  | _ :: _, [] => false
  | a :: as, b :: bs => a = b && startsL as bs

/-- Python substring test `needle in hay`. -/
def containsL (needle : List Char) : List Char → Bool
  | [] => startsL needle []
  | c :: rest => startsL needle (c :: rest) || containsL needle rest

/-- Split a list at every character satisfying `p`; auxiliary form returning
the first fragment and the remaining fragments. -/
def splitAux (p : Char → Bool) : List Char → List Char × List (List Char)
  | [] => ([], [])
  | c :: cs =>
    let r := splitAux p cs
    if p c then ([], r.1 :: r.2) else (c :: r.1, r.2)

/-- Split a list at every character satisfying `p` (keeps empty fragments). -/
def splitOnP (p : Char → Bool) (l : List Char) : List (List Char) :=
  (splitAux p l).1 :: (splitAux p l).2

/-- Python `str.split()` (split on whitespace runs, dropping empties). -/
def wsSplit (l : List Char) : List (List Char) :=
  (splitOnP pyWS l).filter (fun g => g ≠ [])

/-! ## Decimal values -/

/-- A Python `decimal.Decimal` value: an exact rational, a quiet NaN,
a signalling NaN, or a signed infinity. -/
inductive PyDec where
  | num (q : ℚ)
  | nan
  | snan
  | inf (neg : Bool)
deriving DecidableEq

/-- Python exception classes relevant to the program's `except` clauses. -/
inductive RtMsg where
  | apiError (action : String)
  | emptyRemains
  | noUahWallets
  | walletCodeNotFound (code : String) (available : List (Option String))
  | wrongWalletCount (count : Nat) (available : List (Option String))
deriving DecidableEq

inductive PyExc where
  | requestException
  | valueError
  | invalidOperation
  | runtimeError (m : RtMsg)
deriving DecidableEq

/-- Python `==` on Decimals: quiet NaN compares unequal without raising,
signalling NaN raises `InvalidOperation` (default context traps it). -/
def eqD : PyDec → PyDec → Except PyExc Bool
  | .snan, _ => .error .invalidOperation
  | _, .snan => .error .invalidOperation
  | .nan, _ => .ok false
  | _, .nan => .ok false
  | .num a, .num b => .ok (decide (a = b))
  | .num _, .inf _ => .ok false
  | .inf _, .num _ => .ok false
  | .inf s, .inf t => .ok (decide (s = t))

/-- Python `<` on Decimals: any NaN raises `InvalidOperation`. -/
def ltD : PyDec → PyDec → Except PyExc Bool
  | .snan, _ => .error .invalidOperation
  | _, .snan => .error .invalidOperation
  | .nan, _ => .error .invalidOperation
  | _, .nan => .error .invalidOperation
  | .num a, .num b => .ok (decide (a < b))
  | .num _, .inf s => .ok (!s)
  | .inf s, .num _ => .ok s
  | .inf s, .inf t => .ok (s && !t)

/-- Exact rational addition, written with `mkRat` so that it evaluates
inside the kernel; equal to `a + b` (see `qadd_eq_add`). -/
def qadd (a b : ℚ) : ℚ :=
  mkRat (a.num * b.den + b.num * a.den) (a.den * b.den)

/-- Python `+` on Decimals. -/
def addD : PyDec → PyDec → Except PyExc PyDec
  | .snan, _ => .error .invalidOperation
  | _, .snan => .error .invalidOperation
  | .nan, _ => .ok .nan
  | _, .nan => .ok .nan
  | .num a, .num b => .ok (.num (qadd a b))
  | .num _, .inf s => .ok (.inf s)
  | .inf s, .num _ => .ok (.inf s)
  | .inf s, .inf t => if s = t then .ok (.inf s) else .error .invalidOperation

/-- Python `abs` on Decimals. -/
def absD : PyDec → Except PyExc PyDec
  | .snan => .error .invalidOperation
  | .nan => .ok .nan
  | .inf _ => .ok (.inf false)
  | .num a => .ok (.num |a|)

/-- Python unary `-` on Decimals. -/
def negD : PyDec → Except PyExc PyDec
  | .snan => .error .invalidOperation
  | .nan => .ok .nan
  | .inf s => .ok (.inf !s)
  | .num a => .ok (.num (-a))

/-! ## The `Decimal` string constructor -/

/-- ASCII digit (the digits accepted by the `Decimal` grammar). -/
def isDigitC (c : Char) : Bool := 48 ≤ c.toNat ∧ c.toNat ≤ 57

def allDigits (l : List Char) : Bool := l.all isDigitC

/-- Numeric value of a digit string. -/
def digitsVal (l : List Char) : ℕ :=
  l.foldl (fun a c => 10 * a + (c.toNat - 48)) 0

/-- Case-insensitive full match of `cs` against the lowercase pattern. -/
def lcMatches : List Char → List Char → Bool
  | [], [] => true
  | p :: ps, c :: rest => pyLowerChar c = p && lcMatches ps rest
  | _, _ => false

/-- Case-insensitive test that `cs` starts with the lowercase pattern. -/
def lcStarts : List Char → List Char → Bool
  | [], _ => true
  | _ :: _, [] => false
  | p :: ps, c :: rest => pyLowerChar c = p && lcStarts ps rest

def isE (c : Char) : Bool := c = 'e' || c = 'E'

def isDot (c : Char) : Bool := c = '.'

def isComma (c : Char) : Bool := c = ','

/-- The `decimal-part`: digits, at most one dot, at least one digit.  The
value is the exact rational `(intpart·10^k + fracpart) / 10^k`, written
with `mkRat` so that it evaluates inside the kernel. -/
def parseMantissa (m : List Char) : Option ℚ :=
  match splitOnP isDot m with
  | [a] => if allDigits a ∧ a ≠ [] then some ((digitsVal a : ℚ)) else none
  | [a, b] =>
    if allDigits a ∧ allDigits b ∧ (a ≠ [] ∨ b ≠ []) then
      some (mkRat (digitsVal a * 10 ^ b.length + digitsVal b) (10 ^ b.length))
    else none
  | _ => none

/-- Nonempty digit run for the exponent, with its sign. -/
def expDigits (t : List Char) (neg : Bool) : Option ℤ :=
  if allDigits t ∧ t ≠ [] then
    some (if neg then -(digitsVal t : ℤ) else (digitsVal t : ℤ))
  else none

/-- The `exponent-part` body after the `E`: optional sign and digits. -/
def parseExp (l : List Char) : Option ℤ :=
  match l with
  | [] => none
  | c :: t =>
    if c = '+' then expDigits t false
    else if c = '-' then expDigits t true
    else expDigits (c :: t) false

/-- Apply a base-10 exponent to an exact rational (`q·10^k`), written
with `mkRat` so that it evaluates inside the kernel. -/
def applyExp (q : ℚ) (k : ℤ) : ℚ :=
  if 0 ≤ k then mkRat (q.num * 10 ^ k.toNat) q.den
  else mkRat q.num (q.den * 10 ^ (-k).toNat)

/-- Strip one optional leading sign. -/
def stripSign (cs : List Char) : Bool × List Char :=
  match cs with
  | [] => (false, [])
  | c :: t =>
    if c = '-' then (true, t)
    else if c = '+' then (false, t)
    else (false, c :: t)

/-- The numeric-string grammar of `decimal.Decimal`
(`[sign] (decimal-part [exponent] | Inf | Infinity | NaN digits* | sNaN digits*)`,
case-insensitive). -/
def pyDecCore (cs : List Char) : Option PyDec :=
  let neg := (stripSign cs).1
  let body := (stripSign cs).2
  if lcMatches ("inf".toList) body || lcMatches ("infinity".toList) body then
    some (.inf neg)
  else if lcStarts ("nan".toList) body then
    if allDigits (body.drop 3) then some .nan else none
  else if lcStarts ("snan".toList) body then
    if allDigits (body.drop 4) then some .snan else none
  else
    match splitOnP isE body with
    | [m] => (parseMantissa m).map (fun q => .num (if neg then -q else q))
    | [m, ex] =>
      match parseMantissa m, parseExp ex with
      | some q, some k => some (.num (if neg then -(applyExp q k) else applyExp q k))
      | _, _ => none
    | _ => none

/-- Model of `decimal.Decimal(s)` on a string: strip whitespace, drop underscores,
then the numeric-string grammar; `none` models `InvalidOperation`. -/
def pyDecimal (cs : List Char) : Option PyDec :=
  pyDecCore ((pyStrip cs).filter (fun c => c ≠ '_'))

/-! ## Python values from the JSON payloads -/

/-- A Python object occurring in the JSON payloads. -/
inductive JVal where
  | jnull
  | jstr (s : String)
  | jint (n : ℤ)
  | jbool (b : Bool)
deriving DecidableEq

/-- Python truthiness. -/
def truthy : JVal → Bool
  | .jnull => false
  | .jstr s => s ≠ ""
  | .jint n => n ≠ 0
  | .jbool b => b

/-- Python `str(v)`. -/
def pyStr : JVal → String
  | .jnull => "None"
  | .jstr s => s
  | .jint n => toString n
  | .jbool b => if b then "True" else "False"

/-- Python `dict.get(key, default)`: the stored value (even `None`) when the key is
present, the default otherwise. -/
def jget (v : Option JVal) (d : JVal) : JVal := v.getD d

/-- Source function `parse_decimal` (wog_bot.py:44-51): `None ↦ 0`; otherwise
`str(value).strip()` with spaces and NBSPs removed and `,` turned into `.`,
fed to `Decimal`, with `InvalidOperation` mapped to `0`. -/
def parse_decimal (value : JVal) : PyDec :=
  match value with
  | .jnull => .num 0
  | v =>
    let s := ((pyStrip (pyStr v).toList).filter
        (fun c => c ≠ ' ' ∧ c ≠ '\u00A0')).map
        (fun c => if c = ',' then '.' else c)
    match pyDecimal s with
    | some d => d
    | none => .num 0

/-- Source function `norm` (wog_bot.py:58-59) on an already-string argument:
`" ".join(str(s).strip().lower().split())`. -/
def normL (l : List Char) : List Char :=
  List.intercalate [' '] (wsSplit (l.map pyLowerChar))

/-- Python `norm(s)` on an arbitrary object: Python evaluates `str(s or "")`. -/
def normV (v : JVal) : List Char :=
  normL (if truthy v then (pyStr v).toList else [])

/-! ## Wallet snapshots and wallet selection -/

/-- One record of the `WalletsRemains` payload, with the fields the program
reads; `none` models an absent key. -/
structure Wallet where
  GoodsName : Option JVal := none
  GoodsCode : Option JVal := none
  CurrencyCode : Option JVal := none
  WalletCode : Option JVal := none
  WalletName : Option JVal := none
  Value : Option JVal := none
deriving DecidableEq

/-- The value `w.get('WalletCode')` as it is rendered in the error messages of
`select_wallet` (a missing key prints as `None`). -/
def walletCodeStr (w : Wallet) : Option String :=
  match w.WalletCode with
  | none => none
  | some v => some (pyStr v)

/-- Source function `pick_uah_wallets` (wog_bot.py:102-110). -/
def pick_uah_wallets (remains : List Wallet) : List Wallet :=
  remains.filter (fun w =>
    let goods_name := normV (jget w.GoodsName (.jstr ""))
    let goods_code := pyStrip (pyStr (jget w.GoodsCode (.jstr ""))).toList
    let currency_code := (pyStrip (pyStr (jget w.CurrencyCode (.jstr ""))).toList).map pyUpperChar
    goods_name = "грн".toList ∨ goods_name = "uah".toList ∨
    goods_code = "980".toList ∨
    currency_code = "UAH".toList ∨ currency_code = "980".toList)

/-- Truthiness of the `WOG_WALLET_CODE` configuration value. -/
def truthyCode : Option String → Bool
  | none => false
  | some s => s ≠ ""

/-- Source function `select_wallet` (wog_bot.py:113-131), with the configured
`WOG_WALLET_CODE` passed explicitly. -/
def select_wallet (code : Option String) (uah_wallets : List Wallet) :
    Except PyExc Wallet :=
  if truthyCode code then
    let c := code.getD ""
    let selected := uah_wallets.filter
      (fun w => pyStrip (pyStr (jget w.WalletCode (.jstr ""))).toList =
        pyStrip c.toList)
    match selected with
    | [] => .error (.runtimeError
        (.walletCodeNotFound c (uah_wallets.map walletCodeStr)))
    | w :: _ => .ok w
  else
    match uah_wallets with
    | [w] => .ok w
    | l => .error (.runtimeError
        (.wrongWalletCount l.length (l.map walletCodeStr)))

/-! ## Transaction classification -/

/-- One record of the `Transaction` payload, with the fields the program
reads; `none` models an absent key.  The source keys `Type` and `type`
are modelled by `TypeKey` and `typeKey` (the former is a Lean keyword). -/
structure Tx where
  summwithdiscount : Option JVal := none
  sum : Option JVal := none
  Direction : Option JVal := none
  direction : Option JVal := none
  OperationType : Option JVal := none
  operationType : Option JVal := none
  TypeKey : Option JVal := none
  typeKey : Option JVal := none
  goodsName : Option JVal := none
  walletname : Option JVal := none
  cardinfo : Option JVal := none
deriving DecidableEq

/-- Python `str(tx.get(f, ""))`. -/
def dfield (o : Option JVal) : List Char := (pyStr (jget o (.jstr ""))).toList

/-- The normalized concatenation of the six direction-hint fields
(wog_bot.py:144-145). -/
def direction_value (tx : Tx) : List Char :=
  normL (List.intercalate [' ']
    [dfield tx.Direction, dfield tx.direction, dfield tx.OperationType,
     dfield tx.operationType, dfield tx.TypeKey, dfield tx.typeKey])

/-- The normalized free-text fields (wog_bot.py:151-155). -/
def free_text (tx : Tx) : List Char :=
  normL (dfield tx.goodsName ++ [' '] ++ dfield tx.walletname ++ [' '] ++
    dfield tx.cardinfo)

/-- The credit-direction substrings of wog_bot.py:146. -/
def creditTokens : List (List Char) :=
  ["credit".toList, "in".toList, "incoming".toList, "plus".toList,
   "попов".toList, "зарах".toList, "возврат".toList, "повернен".toList]

/-- The debit-direction substrings of wog_bot.py:148. -/
def debitTokens : List (List Char) :=
  ["debit".toList, "out".toList, "outgoing".toList, "minus".toList,
   "спис".toList, "покуп".toList, "оплат".toList]

/-- The default `WOG_CREDIT_KEYWORDS` list (wog_bot.py:27-31). -/
def defaultCreditKeywords : List (List Char) :=
  ["попов".toList, "зарах".toList, "возврат".toList, "повернен".toList,
   "коригув".toList]

/-- Source function `transaction_signed_amount` (wog_bot.py:134-159), with the configured
credit-keyword list passed explicitly. -/
def transaction_signed_amount (kws : List (List Char)) (tx : Tx) :
    Except PyExc PyDec := do
  let a0 := parse_decimal (jget tx.summwithdiscount (jget tx.sum (.jint 0)))
  let m1 ← eqD a0 (.num (-1))
  let amount := if m1 then parse_decimal (jget tx.sum (.jint 0)) else a0
  let z ← eqD amount (.num 0)
  if z then return .num 0
  let isNeg ← ltD amount (.num 0)
  if isNeg then return amount
  let dv := direction_value tx
  if creditTokens.any (fun x => containsL x dv) then absD amount
  else if debitTokens.any (fun x => containsL x dv) then do
    let a ← absD amount
    negD a
  else if kws.any (fun k => containsL k (free_text tx)) then absD amount
  else do
    let a ← absD amount
    negD a

/-! ## Aggregation over the day's transactions -/

/-- The loop body of `calc_today_delta` (wog_bot.py:167-172). -/
def calcGo (kws : List (List Char)) (wn : List Char) :
    List Tx → PyDec → Nat → Except PyExc (PyDec × Nat)
  | [], delta, used => .ok (delta, used)
  | tx :: rest, delta, used =>
    let twn := normV (jget tx.walletname (.jstr ""))
    if wn ≠ [] ∧ twn ≠ [] ∧ twn ≠ wn then
      calcGo kws wn rest delta used
    else do
      let s ← transaction_signed_amount kws tx
      let d ← addD delta s
      calcGo kws wn rest d (used + 1)

/-- Source function `calc_today_delta` (wog_bot.py:162-174). -/
def calc_today_delta (kws : List (List Char)) (transactions : List Tx)
    (wallet_name : List Char) : Except PyExc (PyDec × Nat) :=
  calcGo kws (normL wallet_name) transactions (.num 0) 0

/-! ## The run pipeline (`main`, wog_bot.py:177-265)

One remote exchange is summarised by `Resp`: the environment either makes
the HTTP layer fail (`httpError`: network failure or a non-2xx status via
`raise_for_status`, both `requests.RequestException`), or returns a body
that is not JSON (`badJson`, a `ValueError` from `r.json()`), or returns
JSON whose `status` field is not `"0"` (`apiStatusError`, a
`RuntimeError`), or succeeds with a payload.  The payload models the
`remains` / `transactions` key: absent, present but not a list, or a list
of records. -/

inductive Payload (α : Type) where
  | missing
  | notList
  | list (xs : List α)
deriving DecidableEq

inductive Resp (α : Type) where
  | httpError
  | badJson
  | apiStatusError
  | ok (payload : Payload α)
deriving DecidableEq

/-- Source function `wog_post` (wog_bot.py:86-99): turns a remote outcome into either the
payload or the exception `main` will catch. -/
def wog_post (action : String) (r : Resp α) : Except PyExc (Payload α) :=
  match r with
  | .httpError => .error .requestException
  | .badJson => .error .valueError
  | .apiStatusError => .error (.runtimeError (.apiError action))
  | .ok p => .ok p

/-- The configuration surface read from the environment (wog_bot.py:11-35).
`credsOk` models `all([WOG_API_KEY, TELEGRAM_BOT_TOKEN, TELEGRAM_CHAT_ID])`;
`WOG_BALANCE_MODE` is the already-uppercased mode string. -/
structure Config where
  credsOk : Bool
  BALANCE_THRESHOLD : PyDec
  WOG_WALLET_CODE : Option String
  WOG_BALANCE_MODE : String
  WOG_CREDIT_KEYWORDS : List (List Char)

/-- The observable events of one run: remote calls issued, log lines
emitted and the alert message (carrying the money values it renders). -/
inductive Event where
  | callWalletsRemains
  | callTransaction
  | logErrorCreds
  | logError (e : PyExc)
  | logWarnTxFallback
  | logWarnNoTxList
  | logWalletInfo (opening delta : PyDec) (used : Nat) (balance : PyDec)
      (method : String)
  | sendAlert (balance opening : PyDec) (delta : Option PyDec)
      (threshold : PyDec)
  | logBalanceOk
deriving DecidableEq

/-- Whether an alert message was sent during the run. -/
def alertSent (evs : List Event) : Bool :=
  evs.any (fun e => match e with | .sendAlert _ _ _ _ => true | _ => false)

/-- Whether any error-level log line was emitted during the run. -/
def errorLogged (evs : List Event) : Bool :=
  evs.any (fun e => match e with
    | .logError _ => true
    | .logErrorCreds => true
    | _ => false)

/-- wog_bot.py:192-204: fetch `WalletsRemains`, validate the `remains`
list, filter to UAH wallets and select one. -/
def mainSelectWallet (cfg : Config) (wr : Resp Wallet) : Except PyExc Wallet :=
  match wog_post "WalletsRemains" wr with
  | .error e => .error e
  | .ok p =>
    match p with
    | .missing => .error (.runtimeError .emptyRemains)
    | .notList => .error (.runtimeError .emptyRemains)
    | .list [] => .error (.runtimeError .emptyRemains)
    | .list (w :: ws) =>
      let uah := pick_uah_wallets (w :: ws)
      if uah = [] then .error (.runtimeError .noUahWallets)
      else select_wallet cfg.WOG_WALLET_CODE uah

/-- The state after the transaction phase: the events it emitted and the
values of `balance_for_alert`, `tx_delta`, `tx_used` and `method`. -/
structure TxPhase where
  events : List Event
  balance : PyDec
  delta : PyDec
  used : Nat
  method : String
deriving DecidableEq

/-- wog_bot.py:216-219 with the surrounding `except` (wog_bot.py:224-225):
process a received transaction list.  If `calc_today_delta` raises, the
inner handler falls back to `OPENING` with `tx_delta`/`tx_used` still `0`;
if the addition `opening_balance + tx_delta` raises, they have already been
reassigned. -/
def handleTxList (cfg : Config) (opening : PyDec) (walletName : List Char)
    (txs : List Tx) : TxPhase :=
  match calc_today_delta cfg.WOG_CREDIT_KEYWORDS txs walletName with
  | .error _ => ⟨[.callTransaction, .logWarnTxFallback], opening, .num 0, 0,
      "OPENING"⟩
  | .ok (d, u) =>
    match addD opening d with
    | .error _ => ⟨[.callTransaction, .logWarnTxFallback], opening, d, u,
        "OPENING"⟩
    | .ok b => ⟨[.callTransaction], b, d, u, "OPENING_PLUS_TX"⟩

/-- wog_bot.py:212-226: the whole transaction phase.  Outside
`OPENING_PLUS_TX` mode no `Transaction` request is made; a failing request
or a raising computation is downgraded to a warning and `OPENING`; an
absent `transactions` key defaults to `[]` (which is a list); a
non-list value logs a warning and keeps `OPENING`. -/
def mainTxPhase (cfg : Config) (opening : PyDec) (walletName : List Char)
    (tr : Resp Tx) : TxPhase :=
  if cfg.WOG_BALANCE_MODE = "OPENING_PLUS_TX" then
    match wog_post "Transaction" tr with
    | .error _ => ⟨[.callTransaction, .logWarnTxFallback], opening, .num 0, 0,
        "OPENING"⟩
    | .ok .notList => ⟨[.callTransaction, .logWarnNoTxList], opening, .num 0,
        0, "OPENING"⟩
    | .ok .missing => handleTxList cfg opening walletName []
    | .ok (.list txs) => handleTxList cfg opening walletName txs
  else ⟨[], opening, .num 0, 0, "OPENING"⟩

/-- wog_bot.py:227-258: the wallet-info log line, the threshold comparison
and the alert or all-clear log.  A comparison that raises (NaN balance or
threshold) propagates to the outer generic handler. -/
def mainAlertPhase (threshold balance opening delta : PyDec) (used : Nat)
    (method : String) : List Event :=
  Event.logWalletInfo opening delta used balance method ::
  (match ltD balance threshold with
   | .error e => [Event.logError e]
   | .ok true => [Event.sendAlert balance opening
       (if method = "OPENING_PLUS_TX" then some delta else none) threshold]
   | .ok false => [Event.logBalanceOk])

/-- The body of the outer `try` (wog_bot.py:191-258), with raised
exceptions rendered as the error log of the matching `except` clause
(wog_bot.py:260-265). -/
def runBody (cfg : Config) (wr : Resp Wallet) (tr : Resp Tx) : List Event :=
  match mainSelectWallet cfg wr with
  | .error e => [Event.logError e]
  | .ok wallet =>
    let opening := parse_decimal (jget wallet.Value (.jint 0))
    let wname := (pyStr (jget wallet.WalletName (.jstr ""))).toList
    let tp := mainTxPhase cfg opening wname tr
    tp.events ++
      mainAlertPhase cfg.BALANCE_THRESHOLD tp.balance opening tp.delta
        tp.used tp.method

/-- Source function `main` (wog_bot.py:177-265): one run, as its list of observable
events.  Missing credentials abort before any request.  (Named `mainRun`
because `main` is reserved in Lean.) -/
def mainRun (cfg : Config) (wr : Resp Wallet) (tr : Resp Tx) : List Event :=
  if cfg.credsOk then Event.callWalletsRemains :: runBody cfg wr tr
  else [Event.logErrorCreds]

/-! ## Spec-side characterization of a grouped decimal string

The specification (§4.1, §8) promises that every decimal-valued string
using `,` or `.` as decimal separator, with optional space or
non-breaking-space thousands grouping, parses to the intended exact
decimal.  `specDecimalString` builds exactly those strings and
`specDecimalValue` is their intended value; they follow the spec's words,
for comparison with `parse_decimal`, which is translated from the code. -/

/-- A `sep.join`-style concatenation with a separator between fragments. -/
def joinSep (sep : List Char) : List (List Char) → List Char
  | [] => []
  | [g] => g
  | g :: g2 :: rest => g ++ sep ++ joinSep sep (g2 :: rest)

/-- A decimal-valued string in the sense of the spec: optional minus sign,
digit groups joined by the grouping character, then the decimal separator
and the fraction digits. -/
def specDecimalString (neg : Bool) (groups : List (List Char)) (gch : Char)
    (sep : Char) (frac : List Char) : List Char :=
  (if neg then ['-'] else []) ++ joinSep [gch] groups ++ [sep] ++ frac

/-- The intended exact value of such a string:
`±(digits·10^k + fracdigits) / 10^k`. -/
def specDecimalValue (neg : Bool) (groups : List (List Char))
    (frac : List Char) : ℚ :=
  let q := mkRat (digitsVal groups.flatten * 10 ^ frac.length + digitsVal frac)
    (10 ^ frac.length)
  if neg then -q else q

/-! ## Concrete fixtures used by the witnesses and counterexamples -/

/-- A transaction with a positive amount and direction hint `outgoing`. -/
def txOutgoing : Tx :=
  { summwithdiscount := some (.jstr "100"), Direction := some (.jstr "outgoing") }

/-- A transaction with a positive amount and direction hint `minus`. -/
def txMinus : Tx :=
  { summwithdiscount := some (.jstr "100"), Direction := some (.jstr "minus") }

/-- A transaction with a positive amount and direction hint `debit`. -/
def txDebit : Tx :=
  { summwithdiscount := some (.jstr "100"), Direction := some (.jstr "debit") }

/-- A transaction whose final amount is the `-1` sentinel and whose raw
amount is exactly `0`. -/
def txSentinel : Tx :=
  { summwithdiscount := some (.jstr "-1"), sum := some (.jstr "0") }

/-- A transaction whose final and raw amounts both parse to `-1`. -/
def txBoth1 : Tx :=
  { summwithdiscount := some (.jstr "-1"), sum := some (.jstr "-1") }

/-- A UAH wallet with opening value 100.00. -/
def w100 : Wallet :=
  { CurrencyCode := some (.jstr "UAH"), WalletCode := some (.jstr "W-1"),
    WalletName := some (.jstr "Main"), Value := some (.jstr "100.00") }

/-- A UAH wallet with opening value 110000.00 (equal to the default
threshold). -/
def w110000 : Wallet :=
  { CurrencyCode := some (.jstr "UAH"), WalletCode := some (.jstr "W-1"),
    WalletName := some (.jstr "Main"), Value := some (.jstr "110000.00") }

/-- A UAH wallet with opening value 109999.99 (threshold minus 0.01). -/
def w109999 : Wallet :=
  { CurrencyCode := some (.jstr "UAH"), WalletCode := some (.jstr "W-1"),
    WalletName := some (.jstr "Main"), Value := some (.jstr "109999.99") }

/-- A second, distinct UAH wallet. -/
def w200 : Wallet :=
  { CurrencyCode := some (.jstr "UAH"), WalletCode := some (.jstr "W-2"),
    WalletName := some (.jstr "Second"), Value := some (.jstr "200.00") }

/-- Default-style configuration in `OPENING_PLUS_TX` mode, threshold
110000, no explicit wallet code. -/
def cfgPT : Config :=
  ⟨true, .num 110000, none, "OPENING_PLUS_TX", defaultCreditKeywords⟩

/-- The same configuration in `OPENING` mode. -/
def cfgOP : Config :=
  ⟨true, .num 110000, none, "OPENING", defaultCreditKeywords⟩


deriving instance DecidableEq for Except

/-! ## Claim theorems -/

/-- C2: the claim says every transaction with a strictly positive amount
and an explicit debit-like token (for example "debit", "outgoing",
"minus") is classified negative.  The code returns the negated amount for
"debit", but for "outgoing" and "minus" it returns the positive amount:
the credit-branch substring test for "in" (wog_bot.py:146) matches inside
both words before the debit branch (wog_bot.py:148) is reached, although
the code's own debit list contains "outgoing" and "minus". -/
theorem C2_debit_tokens_evaluation :
    transaction_signed_amount defaultCreditKeywords txDebit =
      .ok (.num (-100)) ∧
    transaction_signed_amount defaultCreditKeywords txOutgoing =
      .ok (.num 100) ∧
    transaction_signed_amount defaultCreditKeywords txMinus =
      .ok (.num 100) := by
  refine ⟨?_, ?_, ?_⟩ <;> decide

/-- C1 counterexample: a run in `OPENING_PLUS_TX` mode whose transaction
feed is an empty list, so zero transactions are classified, yet the
aggregator produces `balance_for_check = opening`, logs `UsedTx=0`
(no error-level log, no abort) and sends the alert. -/
theorem C1_counterexample :
    mainRun cfgPT (.ok (.list [w100])) (.ok (.list [])) =
      [.callWalletsRemains, .callTransaction,
       .logWalletInfo (.num 100) (.num 0) 0 (.num 100) "OPENING_PLUS_TX",
       .sendAlert (.num 100) (.num 100) (some (.num 0)) (.num 110000)] := by
  decide

/-- C3 counterexample: the transaction-feed read fails
(`requests.RequestException`), yet the run does not abort: it logs a
warning, degrades to the opening-only balance and still sends the alert. -/
theorem C3_counterexample :
    mainRun cfgPT (.ok (.list [w100])) .httpError =
      [.callWalletsRemains, .callTransaction, .logWarnTxFallback,
       .logWalletInfo (.num 100) (.num 0) 0 (.num 100) "OPENING",
       .sendAlert (.num 100) (.num 100) none (.num 110000)] := by
  decide

/-- C4 counterexample: a record whose final amount is the `-1` sentinel
and whose raw amount is exactly `0` is classified as a zero-value
transaction (`Decimal("0")`), and `calc_today_delta` counts it
(`used = 1`); there is no "no amount" sentinel. -/
theorem C4_counterexample :
    transaction_signed_amount defaultCreditKeywords txSentinel =
      .ok (.num 0) ∧
    calc_today_delta defaultCreditKeywords [txSentinel] "Main".toList =
      .ok (.num 0, 1) := by
  refine ⟨?_, ?_⟩ <;> decide

/-- C5 counterexample: a run in `OPENING_PLUS_TX` mode whose
wallet-snapshot read fails.  The transaction read is never issued, so the
two reads are not "always both issued" and the second is not independent
of the first's result. -/
theorem C5_counterexample :
    mainRun cfgPT .httpError (.ok (.list [])) =
      [.callWalletsRemains, .logError .requestException] ∧
    Event.callTransaction ∉ mainRun cfgPT .httpError (.ok (.list [])) := by
  refine ⟨?_, ?_⟩ <;> decide

/-- C8 counterexample: the input string "nan" is accepted by
`Decimal` (yielding a quiet NaN), so `parse_decimal` returns the NaN
value: neither an exact decimal value nor the documented fallback `0`. -/
theorem C8_counterexample :
    parse_decimal (.jstr "nan") = PyDec.nan ∧ PyDec.nan ≠ PyDec.num 0 := by
  refine ⟨?_, ?_⟩ <;> decide

/-! ### Shared helper lemmas -/

theorem ebind_ok {α β : Type} (a : α) (f : α → Except PyExc β) :
    (Except.ok a >>= f) = f a := rfl

theorem epure_eq {α : Type} (a : α) : (pure a : Except PyExc α) = Except.ok a :=
  rfl

/-- C9: when both amount fields parse to exactly `-1`, the sentinel check
refetches the raw field, obtains `-1` again, and the negative-passthrough
rule returns it: `-1` is treated as an authoritative negative amount, not
as "no amount". -/
theorem C9_minus_one_fallback_authoritative (kws : List (List Char))
    (tx : Tx) (v1 v2 : JVal)
    (h1 : tx.summwithdiscount = some v1) (h2 : tx.sum = some v2)
    (hp1 : parse_decimal v1 = .num (-1)) (hp2 : parse_decimal v2 = .num (-1)) :
    transaction_signed_amount kws tx = .ok (.num (-1)) := by
  unfold transaction_signed_amount
  rw [h1, h2]
  simp only [jget, Option.getD]
  rw [hp1, hp2]
  have e1 : eqD (.num (-1)) (.num (-1)) = .ok true := by decide
  have e2 : eqD (.num (-1)) (.num 0) = .ok false := by decide
  have e3 : ltD (.num (-1)) (.num 0) = .ok true := by decide
  simp [e1, e2, e3, ebind_ok, epure_eq]

/-- C9 witness: a concrete transaction with both fields `"-1"`. -/
theorem C9_witness :
    transaction_signed_amount defaultCreditKeywords txBoth1 =
      .ok (.num (-1)) :=
  C9_minus_one_fallback_authoritative defaultCreditKeywords txBoth1
    (.jstr "-1") (.jstr "-1") rfl rfl (by decide) (by decide)

/-- C4 amended: a record whose final amount is the not-ready sentinel
(`-1`) and whose raw amount parses to exactly `0` is classified as an
ordinary zero-value transaction (signed amount `Decimal("0")`) and, when
wallet-matched, counts toward the `used` transaction total; the code has
no "no amount" sentinel. -/
theorem C4_amended_zero_raw_counts (kws : List (List Char)) (tx : Tx)
    (v1 v2 : JVal)
    (h1 : tx.summwithdiscount = some v1) (h2 : tx.sum = some v2)
    (hp1 : parse_decimal v1 = .num (-1)) (hp2 : parse_decimal v2 = .num 0) :
    transaction_signed_amount kws tx = .ok (.num 0) ∧
    calc_today_delta kws [tx] [] = .ok (.num 0, 1) := by
  have hts : transaction_signed_amount kws tx = .ok (.num 0) := by
    unfold transaction_signed_amount
    rw [h1, h2]
    simp only [jget, Option.getD]
    rw [hp1, hp2]
    have e1 : eqD (.num (-1)) (.num (-1)) = .ok true := by decide
    have e2 : eqD (.num 0) (.num 0) = .ok true := by decide
    simp [e1, e2, ebind_ok, epure_eq]
  refine ⟨hts, ?_⟩
  unfold calc_today_delta calcGo
  have hn : normL [] = [] := by decide
  rw [hn]
  simp only [ne_eq, not_true_eq_false, false_and, if_false]
  rw [hts, ebind_ok]
  have ha : addD (.num 0) (.num 0) = .ok (.num 0) := by decide
  rw [ha, ebind_ok]
  rfl

/-- C4 witness: the concrete sentinel/zero transaction. -/
theorem C4_witness :
    transaction_signed_amount defaultCreditKeywords txSentinel =
      .ok (.num 0) ∧
    calc_today_delta defaultCreditKeywords [txSentinel] [] =
      .ok (.num 0, 1) :=
  C4_amended_zero_raw_counts defaultCreditKeywords txSentinel
    (.jstr "-1") (.jstr "0") rfl rfl (by decide) (by decide)

/-- C6: with no explicit wallet identifier configured, the selector
returns the unique currency-matching wallet when exactly one exists, and
raises a `RuntimeError` carrying the list of all candidate wallet
identifiers when zero or two-or-more match; there is no branch that sums
wallets or silently picks the first of several. -/
theorem C6_unique_wallet_selection (remains : List Wallet) (w : Wallet) :
    (pick_uah_wallets remains = [w] →
      select_wallet none (pick_uah_wallets remains) = .ok w) ∧
    ((pick_uah_wallets remains).length ≠ 1 →
      select_wallet none (pick_uah_wallets remains) =
        .error (.runtimeError (.wrongWalletCount
          (pick_uah_wallets remains).length
          ((pick_uah_wallets remains).map walletCodeStr)))) := by
  constructor
  · intro h
    rw [h]
    simp [select_wallet, truthyCode]
  · intro h
    cases h' : pick_uah_wallets remains with
    | nil => simp [select_wallet, truthyCode]
    | cons x t =>
      cases t with
      | nil => exact absurd (by rw [h']; rfl) h
      | cons y t2 => simp [select_wallet, truthyCode]

/-- C6 witness: one UAH wallet is selected; two UAH wallets raise the
hard error enumerating both wallet identifiers. -/
theorem C6_witness :
    select_wallet none (pick_uah_wallets [w100]) = .ok w100 ∧
    select_wallet none (pick_uah_wallets [w100, w200]) =
      .error (.runtimeError (.wrongWalletCount 2 [some "W-1", some "W-2"])) :=
  ⟨(C6_unique_wallet_selection [w100] w100).1 (by decide),
   ((C6_unique_wallet_selection [w100, w200] w100).2 (by decide)).trans
     (by decide)⟩

theorem qadd_eq_add (a b : ℚ) : qadd a b = a + b := by
  unfold qadd
  rw [Rat.mkRat_eq_div]
  push_cast
  have ha : (a.den : ℚ) ≠ 0 := Nat.cast_ne_zero.mpr a.den_nz
  have hb : (b.den : ℚ) ≠ 0 := Nat.cast_ne_zero.mpr b.den_nz
  conv_rhs => rw [← Rat.num_div_den a, ← Rat.num_div_den b,
    div_add_div _ _ ha hb]
  ring_nf

theorem qadd_zero (q : ℚ) : qadd q 0 = q := by
  rw [qadd_eq_add, add_zero]

theorem callTX_not_in_alertPhase (th b o d : PyDec) (u : Nat) (m : String) :
    Event.callTransaction ∉ mainAlertPhase th b o d u m := by
  unfold mainAlertPhase
  cases h : ltD b th with
  | error e => simp
  | ok v => cases v <;> simp

theorem handleTxList_events (cfg : Config) (o : PyDec) (wn : List Char)
    (txs : List Tx) :
    ∃ r, (handleTxList cfg o wn txs).events = Event.callTransaction :: r := by
  unfold handleTxList
  split
  · exact ⟨_, rfl⟩
  · split
    · exact ⟨_, rfl⟩
    · exact ⟨_, rfl⟩

theorem txPhase_events_cons (cfg : Config) (o : PyDec) (wn : List Char)
    (tr : Resp Tx) (hm : cfg.WOG_BALANCE_MODE = "OPENING_PLUS_TX") :
    ∃ r, (mainTxPhase cfg o wn tr).events = Event.callTransaction :: r := by
  unfold mainTxPhase
  rw [if_pos hm]
  cases wog_post "Transaction" tr with
  | error e => exact ⟨_, rfl⟩
  | ok p =>
    cases p with
    | notList => exact ⟨_, rfl⟩
    | missing => exact handleTxList_events cfg o wn []
    | list txs => exact handleTxList_events cfg o wn txs

theorem txPhase_none (cfg : Config) (o : PyDec) (wn : List Char)
    (tr : Resp Tx) (hm : ¬ cfg.WOG_BALANCE_MODE = "OPENING_PLUS_TX") :
    mainTxPhase cfg o wn tr = ⟨[], o, .num 0, 0, "OPENING"⟩ := by
  unfold mainTxPhase
  rw [if_neg hm]

theorem runBody_ok (cfg : Config) (wr : Resp Wallet) (tr : Resp Tx)
    (w : Wallet) (hsel : mainSelectWallet cfg wr = .ok w) :
    runBody cfg wr tr =
      (mainTxPhase cfg (parse_decimal (jget w.Value (.jint 0)))
        ((pyStr (jget w.WalletName (.jstr ""))).toList) tr).events ++
      mainAlertPhase cfg.BALANCE_THRESHOLD
        (mainTxPhase cfg (parse_decimal (jget w.Value (.jint 0)))
          ((pyStr (jget w.WalletName (.jstr ""))).toList) tr).balance
        (parse_decimal (jget w.Value (.jint 0)))
        (mainTxPhase cfg (parse_decimal (jget w.Value (.jint 0)))
          ((pyStr (jget w.WalletName (.jstr ""))).toList) tr).delta
        (mainTxPhase cfg (parse_decimal (jget w.Value (.jint 0)))
          ((pyStr (jget w.WalletName (.jstr ""))).toList) tr).used
        (mainTxPhase cfg (parse_decimal (jget w.Value (.jint 0)))
          ((pyStr (jget w.WalletName (.jstr ""))).toList) tr).method := by
  unfold runBody
  rw [hsel]

/-- C1 amended: in `OPENING_PLUS_TX` mode, when the transaction feed
returns an empty list (zero used and zero classified transactions), the
run does not abort and no error is logged: the aggregator produces
`balance_for_check = opening + 0` and proceeds to the threshold
evaluation, sending the alert exactly when the opening balance is below
the threshold. -/
theorem C1_amended_no_guard (kws : List (List Char)) (w : Wallet) (t q : ℚ)
    (hpick : pick_uah_wallets [w] = [w])
    (hval : parse_decimal (jget w.Value (.jint 0)) = .num q) :
    mainRun ⟨true, .num t, none, "OPENING_PLUS_TX", kws⟩
        (.ok (.list [w])) (.ok (.list [])) =
      [.callWalletsRemains, .callTransaction,
       .logWalletInfo (.num q) (.num 0) 0 (.num q) "OPENING_PLUS_TX"] ++
      (if q < t then [.sendAlert (.num q) (.num q) (some (.num 0)) (.num t)]
       else [.logBalanceOk]) := by
  have hsel : mainSelectWallet ⟨true, .num t, none, "OPENING_PLUS_TX", kws⟩
      (.ok (.list [w])) = .ok w := by
    simp [mainSelectWallet, wog_post, hpick, select_wallet, truthyCode]
  unfold mainRun runBody
  rw [hsel]
  simp only [mainTxPhase, wog_post, handleTxList, calc_today_delta, calcGo]
  rw [hval]
  have ha : addD (.num q) (.num 0) = .ok (.num q) := by
    simp [addD, qadd_zero]
  simp only [ha]
  simp only [mainAlertPhase, ltD]
  by_cases hlt : q < t
  · simp [hlt]
  · simp [hlt]

/-- C1 witness: concrete run with an empty feed and opening 100 below the
threshold 110000; the alert is sent. -/
theorem C1_witness :
    mainRun ⟨true, .num 110000, none, "OPENING_PLUS_TX",
        defaultCreditKeywords⟩ (.ok (.list [w100])) (.ok (.list [])) =
      [.callWalletsRemains, .callTransaction,
       .logWalletInfo (.num 100) (.num 0) 0 (.num 100) "OPENING_PLUS_TX"] ++
      (if (100 : ℚ) < 110000 then
        [.sendAlert (.num 100) (.num 100) (some (.num 0)) (.num 110000)]
       else [.logBalanceOk]) :=
  C1_amended_no_guard defaultCreditKeywords w100 110000 100 (by decide)
    (by decide)

/-- C7: an alert fires exactly when the balance-for-check is strictly
below the configured threshold; the run's events are the wallet-info log
followed by either the alert message or the balance-ok log, so equality
with the threshold never triggers an alert. -/
theorem C7_alert_iff_below_threshold (kws : List (List Char)) (w : Wallet)
    (q t : ℚ) (tr : Resp Tx)
    (hpick : pick_uah_wallets [w] = [w])
    (hval : parse_decimal (jget w.Value (.jint 0)) = .num q) :
    mainRun ⟨true, .num t, none, "OPENING", kws⟩ (.ok (.list [w])) tr =
      [.callWalletsRemains,
       .logWalletInfo (.num q) (.num 0) 0 (.num q) "OPENING"] ++
      (if q < t then [.sendAlert (.num q) (.num q) none (.num t)]
       else [.logBalanceOk]) ∧
    (alertSent (mainRun ⟨true, .num t, none, "OPENING", kws⟩
        (.ok (.list [w])) tr) = true ↔ q < t) := by
  have hsel : mainSelectWallet ⟨true, .num t, none, "OPENING", kws⟩
      (.ok (.list [w])) = .ok w := by
    simp [mainSelectWallet, wog_post, hpick, select_wallet, truthyCode]
  have heq : mainRun ⟨true, .num t, none, "OPENING", kws⟩
      (.ok (.list [w])) tr =
      [.callWalletsRemains,
       .logWalletInfo (.num q) (.num 0) 0 (.num q) "OPENING"] ++
      (if q < t then [.sendAlert (.num q) (.num q) none (.num t)]
       else [.logBalanceOk]) := by
    unfold mainRun runBody
    rw [hsel]
    simp only [mainTxPhase]
    rw [hval]
    simp only [mainAlertPhase, ltD]
    by_cases hlt : q < t
    · simp [hlt]
    · simp [hlt]
  refine ⟨heq, ?_⟩
  rw [heq]
  by_cases hlt : q < t
  · simp [alertSent, hlt]
  · simp [alertSent, hlt]

/-- C7 witness: opening equal to the threshold produces no alert; opening
equal to threshold − 0.01 fires the alert. -/
theorem C7_witness :
    alertSent (mainRun ⟨true, .num 110000, none, "OPENING",
        defaultCreditKeywords⟩ (.ok (.list [w110000])) (.ok (.list []))) =
      false ∧
    alertSent (mainRun ⟨true, .num 110000, none, "OPENING",
        defaultCreditKeywords⟩ (.ok (.list [w109999])) (.ok (.list []))) =
      true := by
  constructor
  · have h := (C7_alert_iff_below_threshold defaultCreditKeywords w110000
      110000 110000 (.ok (.list [])) (by decide) (by decide)).2
    cases hb : alertSent (mainRun ⟨true, .num 110000, none, "OPENING",
        defaultCreditKeywords⟩ (.ok (.list [w110000])) (.ok (.list []))) with
    | false => rfl
    | true => exact absurd (h.mp hb) (by decide)
  · exact (C7_alert_iff_below_threshold defaultCreditKeywords w109999
      (mkRat 10999999 100) 110000 (.ok (.list [])) (by decide)
      (by decide)).2.mpr (by decide)

/-- C3 amended: a failure of the wallet-snapshot read (network/HTTP
error, malformed JSON body, or API status other than "0") aborts the run
with the matching error log and no alert; but a failure of the
transaction-feed read in `OPENING_PLUS_TX` mode does not abort: it is
downgraded to a warning, the run falls back to the opening-only balance
(`method = OPENING`) and an alert may still be sent. -/
theorem C3_amended_failure_policy :
    (∀ (cfg : Config) (tr : Resp Tx), cfg.credsOk = true →
      mainRun cfg .httpError tr =
        [.callWalletsRemains, .logError .requestException] ∧
      mainRun cfg .badJson tr = [.callWalletsRemains, .logError .valueError] ∧
      mainRun cfg .apiStatusError tr =
        [.callWalletsRemains,
         .logError (.runtimeError (.apiError "WalletsRemains"))]) ∧
    (∀ (kws : List (List Char)) (w : Wallet) (t q : ℚ) (tr : Resp Tx)
      (e : PyExc), wog_post "Transaction" tr = .error e →
      pick_uah_wallets [w] = [w] →
      parse_decimal (jget w.Value (.jint 0)) = .num q →
      mainRun ⟨true, .num t, none, "OPENING_PLUS_TX", kws⟩
          (.ok (.list [w])) tr =
        [.callWalletsRemains, .callTransaction, .logWarnTxFallback,
         .logWalletInfo (.num q) (.num 0) 0 (.num q) "OPENING"] ++
        (if q < t then [.sendAlert (.num q) (.num q) none (.num t)]
         else [.logBalanceOk])) := by
  constructor
  · intro cfg tr hc
    refine ⟨?_, ?_, ?_⟩ <;>
      simp [mainRun, runBody, mainSelectWallet, wog_post, hc]
  · intro kws w t q tr e htr hpick hval
    have hsel : mainSelectWallet ⟨true, .num t, none, "OPENING_PLUS_TX", kws⟩
        (.ok (.list [w])) = .ok w := by
      simp [mainSelectWallet, wog_post, hpick, select_wallet, truthyCode]
    unfold mainRun runBody
    rw [hsel]
    simp only [mainTxPhase]
    rw [htr]
    rw [hval]
    simp only [mainAlertPhase, ltD]
    by_cases hlt : q < t
    · simp [hlt]
    · simp [hlt]

/-- C3 witness: a snapshot failure aborts with only the network-error
log; a transaction-feed failure (malformed body) degrades to `OPENING`
and still alerts. -/
theorem C3_witness :
    mainRun cfgOP .httpError (.ok (.list [])) =
      [.callWalletsRemains, .logError .requestException] ∧
    mainRun ⟨true, .num 110000, none, "OPENING_PLUS_TX",
        defaultCreditKeywords⟩ (.ok (.list [w100])) .badJson =
      [.callWalletsRemains, .callTransaction, .logWarnTxFallback,
       .logWalletInfo (.num 100) (.num 0) 0 (.num 100) "OPENING"] ++
      (if (100 : ℚ) < 110000 then
        [.sendAlert (.num 100) (.num 100) none (.num 110000)]
       else [.logBalanceOk]) :=
  ⟨(C3_amended_failure_policy.1 cfgOP (.ok (.list [])) rfl).1,
   C3_amended_failure_policy.2 defaultCreditKeywords w100 110000 100
     .badJson .valueError rfl (by decide) (by decide)⟩

/-- C5 amended: the transaction-feed read is issued only in
`OPENING_PLUS_TX` mode and only after the wallet-snapshot read has
succeeded and a wallet has been selected (whenever it is issued the event
list begins with the snapshot call followed by the transaction call); the
snapshot read itself is issued on every run with credentials present. -/
theorem C5_amended_call_order (cfg : Config) (wr : Resp Wallet)
    (tr : Resp Tx) :
    (Event.callTransaction ∈ mainRun cfg wr tr →
      cfg.WOG_BALANCE_MODE = "OPENING_PLUS_TX" ∧
      (mainRun cfg wr tr).take 2 =
        [Event.callWalletsRemains, Event.callTransaction]) ∧
    (cfg.credsOk = true →
      (mainRun cfg wr tr).head? = some Event.callWalletsRemains) := by
  constructor
  · intro h
    by_cases hc : cfg.credsOk
    · rw [mainRun, if_pos hc] at h ⊢
      simp only [List.mem_cons] at h
      rcases h with h | h
      · exact absurd h (by simp)
      · cases hsel : mainSelectWallet cfg wr with
        | error e =>
          rw [runBody, hsel] at h
          simp at h
        | ok w =>
          rw [runBody_ok cfg wr tr w hsel] at h
          simp only [List.mem_append] at h
          rcases h with h | h
          · by_cases hm : cfg.WOG_BALANCE_MODE = "OPENING_PLUS_TX"
            · refine ⟨hm, ?_⟩
              obtain ⟨r, hr⟩ := txPhase_events_cons cfg
                (parse_decimal (jget w.Value (.jint 0)))
                ((pyStr (jget w.WalletName (.jstr ""))).toList) tr hm
              rw [runBody_ok cfg wr tr w hsel, hr]
              simp
            · rw [txPhase_none cfg _ _ tr hm] at h
              simp at h
          · exact absurd h (callTX_not_in_alertPhase _ _ _ _ _ _)
    · rw [mainRun, if_neg hc] at h
      simp at h
  · intro hc
    rw [mainRun, if_pos hc]
    rfl

/-- C5 witness: a concrete run that does issue the transaction call,
showing the fixed order snapshot-then-transactions. -/
theorem C5_witness :
    cfgPT.WOG_BALANCE_MODE = "OPENING_PLUS_TX" ∧
    (mainRun cfgPT (.ok (.list [w100])) (.ok (.list []))).take 2 =
      [Event.callWalletsRemains, Event.callTransaction] ∧
    (mainRun cfgPT (.ok (.list [w100])) (.ok (.list []))).head? =
      some Event.callWalletsRemains := by
  have h := C5_amended_call_order cfgPT (.ok (.list [w100])) (.ok (.list []))
  have h1 := h.1 (by decide)
  exact ⟨h1.1, h1.2, h.2 rfl⟩

theorem countP_dropWhile (p q : Char → Bool)
    (h : ∀ c, q c = true → p c = false) (l : List Char) :
    (l.dropWhile q).countP p = l.countP p := by
  induction l with
  | nil => rfl
  | cons c t ih =>
    by_cases hc : q c
    · rw [List.dropWhile_cons, if_pos hc, ih, List.countP_cons, h c hc]
      simp
    · rw [List.dropWhile_cons, if_neg hc]

theorem countP_pyStrip (p : Char → Bool)
    (h : ∀ c, pyWS c = true → p c = false) (l : List Char) :
    (pyStrip l).countP p = l.countP p := by
  unfold pyStrip
  rw [List.countP_reverse, countP_dropWhile p pyWS h, List.countP_reverse,
    countP_dropWhile p pyWS h]

theorem countP_filter_of (p q : Char → Bool)
    (h : ∀ c, p c = true → q c = true) (l : List Char) :
    (l.filter q).countP p = l.countP p := by
  induction l with
  | nil => rfl
  | cons c t ih =>
    by_cases hc : q c
    · rw [List.filter_cons_of_pos hc, List.countP_cons, List.countP_cons, ih]
    · have hp : p c = false := by
        cases hpc : p c with
        | false => rfl
        | true => exact absurd (h c hpc) (by simp [hc])
      rw [List.filter_cons_of_neg hc, List.countP_cons, hp, ih]
      simp

theorem countP_map_commaToDot (l : List Char) :
    (l.map (fun c => if c = ',' then '.' else c)).countP isDot =
      l.countP isDot + l.countP isComma := by
  induction l with
  | nil => rfl
  | cons c t ih =>
    rw [List.map_cons, List.countP_cons, List.countP_cons, List.countP_cons,
      ih]
    by_cases hc : c = ','
    · subst hc
      rw [if_pos rfl, show isDot '.' = true from rfl,
        show isDot ',' = false from rfl, show isComma ',' = true from rfl]
      simp
      omega
    · rw [if_neg hc]
      have : isComma c = false := by simp [isComma, hc]
      rw [this]
      simp
      omega

theorem stripSign_countP (p : Char → Bool) (hplus : p '+' = false)
    (hminus : p '-' = false) (cs : List Char) :
    ((stripSign cs).2).countP p = cs.countP p := by
  cases cs with
  | nil => rfl
  | cons c t =>
    show List.countP p
      (if c = '-' then (true, t)
       else if c = '+' then (false, t) else (false, c :: t)).2 =
      List.countP p (c :: t)
    by_cases h1 : c = '-'
    · subst h1
      rw [if_pos rfl]
      simp [List.countP_cons, hminus]
    · rw [if_neg h1]
      by_cases h2 : c = '+'
      · subst h2
        rw [if_pos rfl]
        simp [List.countP_cons, hplus]
      · rw [if_neg h2]

theorem splitAux_snd_length (p : Char → Bool) (l : List Char) :
    (splitAux p l).2.length = l.countP p := by
  induction l with
  | nil => rfl
  | cons c t ih =>
    unfold splitAux
    by_cases hc : p c
    · rw [if_pos hc]
      simp [List.countP_cons, hc, ih]
    · rw [if_neg hc]
      simp [List.countP_cons, hc, ih]

theorem splitAux_countP (p q : Char → Bool)
    (h : ∀ c, p c = true → q c = false) (l : List Char) :
    (splitAux p l).1.countP q +
      (((splitAux p l).2).map (List.countP q)).sum = l.countP q := by
  induction l with
  | nil => rfl
  | cons c t ih =>
    unfold splitAux
    by_cases hc : p c
    · rw [if_pos hc]
      simp only [List.countP_nil, List.map_cons, List.sum_cons,
        List.countP_cons, h c hc]
      simp
      omega
    · rw [if_neg hc]
      simp only [List.countP_cons]
      omega

theorem lcMatches_mem (pat cs : List Char) (h : lcMatches pat cs = true) :
    ∀ c ∈ cs, pyLowerChar c ∈ pat := by
  induction pat generalizing cs with
  | nil =>
    cases cs with
    | nil => intro c hc; simp at hc
    | cons x t => simp [lcMatches] at h
  | cons p ps ih =>
    cases cs with
    | nil => simp [lcMatches] at h
    | cons x t =>
      simp only [lcMatches, Bool.and_eq_true, decide_eq_true_eq] at h
      intro c hc
      rcases List.mem_cons.mp hc with rfl | hc
      · rw [h.1]
        exact List.mem_cons_self p ps
      · exact List.mem_cons_of_mem p (ih t h.2 c hc)

theorem lcStarts_take_no_dot (pat cs : List Char)
    (h : lcStarts pat cs = true) (hd : '.' ∉ pat) :
    (cs.take pat.length).countP isDot = 0 := by
  induction pat generalizing cs with
  | nil => simp
  | cons p ps ih =>
    cases cs with
    | nil => simp [lcStarts] at h
    | cons x t =>
      simp only [lcStarts, Bool.and_eq_true, decide_eq_true_eq] at h
      rw [List.length_cons, List.take_succ_cons, List.countP_cons]
      have hx : isDot x = false := by
        cases hix : isDot x with
        | false => rfl
        | true =>
          have hxe : x = '.' := of_decide_eq_true hix
          subst hxe
          have hp : p = '.' := by
            have h1 := h.1
            rw [show pyLowerChar '.' = '.' from rfl] at h1
            exact h1.symm
          subst hp
          exact absurd (List.mem_cons_self '.' ps) hd
      rw [hx]
      have := ih t h.2 (fun hp => hd (List.mem_cons_of_mem p hp))
      simp [this]

theorem allDigits_false_of_dot (l : List Char) (h : '.' ∈ l) :
    allDigits l = false := by
  cases ha : allDigits l with
  | false => rfl
  | true =>
    have := List.all_eq_true.mp ha '.' h
    simp [isDigitC] at this

theorem expDigits_none_of_dot (t : List Char) (neg : Bool) (h : '.' ∈ t) :
    expDigits t neg = none := by
  unfold expDigits
  rw [if_neg]
  intro hc
  rw [allDigits_false_of_dot t h] at hc
  exact Bool.false_ne_true (by simpa using hc.1)

theorem parseExp_none_of_dot (ex : List Char)
    (h : 0 < ex.countP isDot) : parseExp ex = none := by
  obtain ⟨c0, hc0, hdc0⟩ := List.countP_pos_iff.mp h
  have hc0' : c0 = '.' := of_decide_eq_true hdc0
  subst hc0'
  cases ex with
  | nil => simp at hc0
  | cons c t =>
    show (if c = '+' then expDigits t false
      else if c = '-' then expDigits t true
      else expDigits (c :: t) false) = none
    by_cases h1 : c = '+'
    · subst h1
      rw [if_pos rfl]
      exact expDigits_none_of_dot t false
        (by rcases List.mem_cons.mp hc0 with he | ht
            · exact absurd he.symm (by decide)
            · exact ht)
    · rw [if_neg h1]
      by_cases h2 : c = '-'
      · subst h2
        rw [if_pos rfl]
        exact expDigits_none_of_dot t true
          (by rcases List.mem_cons.mp hc0 with he | ht
              · exact absurd he.symm (by decide)
              · exact ht)
      · rw [if_neg h2]
        exact expDigits_none_of_dot (c :: t) false hc0

theorem parseMantissa_none_of_two_dots (m : List Char)
    (h : 2 ≤ m.countP isDot) : parseMantissa m = none := by
  unfold parseMantissa splitOnP
  have hl := splitAux_snd_length isDot m
  cases h2 : (splitAux isDot m).2 with
  | nil => rw [h2] at hl; simp at hl; omega
  | cons x t2 =>
    cases t2 with
    | nil => rw [h2] at hl; simp at hl; omega
    | cons y t3 => rfl

theorem isE_not_dot : ∀ c, isE c = true → isDot c = false := by
  intro c hc
  simp [isE] at hc
  rcases hc with rfl | rfl <;> decide

theorem pyWS_not_dot : ∀ c, pyWS c = true → isDot c = false := by
  intro c hc
  cases hd : isDot c with
  | false => rfl
  | true =>
    have : c = '.' := of_decide_eq_true hd
    subst this
    exact absurd hc (by decide)

theorem pyWS_not_comma : ∀ c, pyWS c = true → isComma c = false := by
  intro c hc
  cases hd : isComma c with
  | false => rfl
  | true =>
    have : c = ',' := of_decide_eq_true hd
    subst this
    exact absurd hc (by decide)

theorem lcMatches_false_of_dot (pat cs : List Char) (hdot : '.' ∈ cs)
    (hp : '.' ∉ pat) : lcMatches pat cs = false := by
  cases hm : lcMatches pat cs with
  | false => rfl
  | true =>
    have := lcMatches_mem pat cs hm '.' hdot
    rw [show pyLowerChar '.' = '.' from rfl] at this
    exact absurd this hp

theorem pyDecCore_none_of_two_dots (cs : List Char)
    (h : 2 ≤ cs.countP isDot) : pyDecCore cs = none := by
  have hb : ((stripSign cs).2).countP isDot = cs.countP isDot :=
    stripSign_countP isDot (by decide) (by decide) cs
  have h2 : 2 ≤ ((stripSign cs).2).countP isDot := by omega
  have hpos : 0 < ((stripSign cs).2).countP isDot := by omega
  obtain ⟨c0, hmem, hdc⟩ := List.countP_pos_iff.mp hpos
  have hc0 : c0 = '.' := of_decide_eq_true hdc
  subst hc0
  show (if lcMatches ("inf".toList) (stripSign cs).2 ||
        lcMatches ("infinity".toList) (stripSign cs).2 then
      some (PyDec.inf (stripSign cs).1)
    else if lcStarts ("nan".toList) (stripSign cs).2 then
      (if allDigits ((stripSign cs).2.drop 3) then some PyDec.nan else none)
    else if lcStarts ("snan".toList) (stripSign cs).2 then
      (if allDigits ((stripSign cs).2.drop 4) then some PyDec.snan else none)
    else match splitOnP isE (stripSign cs).2 with
      | [m] => (parseMantissa m).map
          (fun q => PyDec.num (if (stripSign cs).1 then -q else q))
      | [m, ex] =>
        match parseMantissa m, parseExp ex with
        | some q, some k => some (PyDec.num (if (stripSign cs).1 then
            -(applyExp q k) else applyExp q k))
        | _, _ => none
      | _ => none) = none
  rw [lcMatches_false_of_dot ("inf".toList) _ hmem (by decide),
    lcMatches_false_of_dot ("infinity".toList) _ hmem (by decide)]
  simp only [Bool.or_self, Bool.false_eq_true, if_false]
  by_cases hnan : lcStarts ("nan".toList) (stripSign cs).2 = true
  · rw [if_pos hnan]
    have htake := lcStarts_take_no_dot ("nan".toList) _ hnan (by decide)
    have hsplit : ((stripSign cs).2.take 3).countP isDot +
        ((stripSign cs).2.drop 3).countP isDot =
        ((stripSign cs).2).countP isDot := by
      rw [← List.countP_append, List.take_append_drop]
    have hdrop : 0 < ((stripSign cs).2.drop 3).countP isDot := by
      rw [show ("nan".toList).length = 3 from rfl] at htake
      omega
    obtain ⟨d0, hd0, hdd0⟩ := List.countP_pos_iff.mp hdrop
    have : d0 = '.' := of_decide_eq_true hdd0
    subst this
    rw [allDigits_false_of_dot _ hd0]
    simp
  · rw [if_neg hnan]
    by_cases hsnan : lcStarts ("snan".toList) (stripSign cs).2 = true
    · rw [if_pos hsnan]
      have htake := lcStarts_take_no_dot ("snan".toList) _ hsnan (by decide)
      have hsplit : ((stripSign cs).2.take 4).countP isDot +
          ((stripSign cs).2.drop 4).countP isDot =
          ((stripSign cs).2).countP isDot := by
        rw [← List.countP_append, List.take_append_drop]
      have hdrop : 0 < ((stripSign cs).2.drop 4).countP isDot := by
        rw [show ("snan".toList).length = 4 from rfl] at htake
        omega
      obtain ⟨d0, hd0, hdd0⟩ := List.countP_pos_iff.mp hdrop
      have : d0 = '.' := of_decide_eq_true hdd0
      subst this
      rw [allDigits_false_of_dot _ hd0]
      simp
    · rw [if_neg hsnan]
      have hsum := splitAux_countP isE isDot isE_not_dot (stripSign cs).2
      unfold splitOnP
      cases hsp : (splitAux isE (stripSign cs).2).2 with
      | nil =>
        rw [hsp] at hsum
        simp only [List.map_nil, List.sum_nil, add_zero] at hsum
        show (parseMantissa ((splitAux isE (stripSign cs).2).1)).map
            (fun q => PyDec.num (if (stripSign cs).1 = true then -q else q)) =
          none
        rw [parseMantissa_none_of_two_dots ((splitAux isE (stripSign cs).2).1)
          (by omega)]
        rfl
      | cons ex t3 =>
        cases t3 with
        | nil =>
          rw [hsp] at hsum
          simp only [List.map_cons, List.map_nil, List.sum_cons,
            List.sum_nil, add_zero] at hsum
          show (match parseMantissa ((splitAux isE (stripSign cs).2).1),
              parseExp ex with
            | some q, some k => some (PyDec.num (if (stripSign cs).1 = true
                then -(applyExp q k) else applyExp q k))
            | _, _ => none) = none
          by_cases hex : 0 < ex.countP isDot
          · rw [parseExp_none_of_dot ex hex]
            cases parseMantissa ((splitAux isE (stripSign cs).2).1) <;> rfl
          · rw [parseMantissa_none_of_two_dots
              ((splitAux isE (stripSign cs).2).1) (by omega)]
        | cons z t4 => rfl

/-- C10: every input string containing both a comma and a dot (in
particular "1,234.56", a comma-grouped number with dot decimal separator)
is mapped to `0` by `parse_decimal`: the comma is first replaced by a dot,
so the string reaching `Decimal` has at least two dots, which the
numeric-string grammar rejects in every branch, and the
`InvalidOperation` handler returns `Decimal("0")`. -/
theorem C10_comma_thousands_yields_zero (s : String) (hc : ',' ∈ s.toList) (hd : '.' ∈ s.toList) :
    parse_decimal (.jstr s) = .num 0 := by
  have hc1 : 0 < s.toList.countP isComma :=
    List.countP_pos_iff.mpr ⟨',', hc, by decide⟩
  have hd1 : 0 < s.toList.countP isDot :=
    List.countP_pos_iff.mpr ⟨'.', hd, by decide⟩
  have h1d : (pyStrip s.toList).countP isDot = s.toList.countP isDot :=
    countP_pyStrip isDot pyWS_not_dot s.toList
  have h1c : (pyStrip s.toList).countP isComma = s.toList.countP isComma :=
    countP_pyStrip isComma pyWS_not_comma s.toList
  have h2d : (((pyStrip s.toList).filter
      (fun c => c ≠ ' ' ∧ c ≠ '\u00A0'))).countP isDot =
      (pyStrip s.toList).countP isDot := by
    refine countP_filter_of isDot _ ?_ _
    intro c h
    have : c = '.' := of_decide_eq_true h
    subst this
    decide
  have h2c : (((pyStrip s.toList).filter
      (fun c => c ≠ ' ' ∧ c ≠ '\u00A0'))).countP isComma =
      (pyStrip s.toList).countP isComma := by
    refine countP_filter_of isComma _ ?_ _
    intro c h
    have : c = ',' := of_decide_eq_true h
    subst this
    decide
  have h3 : ((((pyStrip s.toList).filter
      (fun c => c ≠ ' ' ∧ c ≠ '\u00A0')).map
      (fun c => if c = ',' then '.' else c))).countP isDot =
      (((pyStrip s.toList).filter
        (fun c => c ≠ ' ' ∧ c ≠ '\u00A0'))).countP isDot +
      (((pyStrip s.toList).filter
        (fun c => c ≠ ' ' ∧ c ≠ '\u00A0'))).countP isComma :=
    countP_map_commaToDot _
  have hnone : pyDecimal ((((pyStrip s.toList).filter
      (fun c => c ≠ ' ' ∧ c ≠ '\u00A0')).map
      (fun c => if c = ',' then '.' else c))) = none := by
    unfold pyDecimal
    apply pyDecCore_none_of_two_dots
    have h4 : ∀ l : List Char, ((pyStrip l).filter
        (fun c => c ≠ '_')).countP isDot = l.countP isDot := by
      intro l
      rw [countP_filter_of isDot _ ?_ _, countP_pyStrip isDot pyWS_not_dot]
      intro c h
      have : c = '.' := of_decide_eq_true h
      subst this
      decide
    rw [h4]
    omega
  show (match pyDecimal ((((pyStrip s.toList).filter
      (fun c => c ≠ ' ' ∧ c ≠ '\u00A0')).map
      (fun c => if c = ',' then '.' else c))) with
    | some d => d
    | none => PyDec.num 0) = PyDec.num 0
  rw [hnone]

/-- C10 witness: the documented example input. -/
theorem C10_witness : parse_decimal (.jstr "1,234.56") = .num 0 :=
  C10_comma_thousands_yields_zero "1,234.56" (by decide) (by decide)

theorem isDigitC_toNat {c : Char} (h : isDigitC c = true) :
    48 ≤ c.toNat ∧ c.toNat ≤ 57 := of_decide_eq_true h

theorem digit_ne {c : Char} (h : isDigitC c = true) (d : Char)
    (hd : d.toNat < 48 ∨ 57 < d.toNat) : c ≠ d := by
  obtain ⟨h48, h57⟩ := isDigitC_toNat h
  intro he
  subst he
  omega

theorem pyWS_false_of_digit {c : Char} (h : isDigitC c = true) :
    pyWS c = false := by
  have hb := isDigitC_toNat h
  simp only [pyWS, Bool.or_eq_false_iff, decide_eq_false_iff_not]
  repeat' apply And.intro
  all_goals intro he
  all_goals subst he
  all_goals revert hb
  all_goals decide

theorem pyLowerChar_fix_lt65 {c : Char} (h : c.toNat < 65) :
    pyLowerChar c = c := by
  unfold pyLowerChar
  rw [if_neg (by omega), if_neg (by omega), if_neg (by omega),
    if_neg (by omega), if_neg (by omega), if_neg (by omega),
    if_neg (by omega)]

theorem pyLowerChar_digit {c : Char} (h : isDigitC c = true) :
    pyLowerChar c = c := by
  obtain ⟨h48, h57⟩ := isDigitC_toNat h
  exact pyLowerChar_fix_lt65 (by omega)

theorem isE_false_of_digit {c : Char} (h : isDigitC c = true) :
    isE c = false := by
  simp only [isE, Bool.or_eq_false_iff, decide_eq_false_iff_not]
  exact ⟨digit_ne h 'e' (by decide), digit_ne h 'E' (by decide)⟩

theorem isDot_false_of_digit {c : Char} (h : isDigitC c = true) :
    isDot c = false := by
  simp only [isDot, decide_eq_false_iff_not]
  exact digit_ne h '.' (by decide)

theorem splitAux_no_split (p : Char → Bool) (l : List Char)
    (h : ∀ c ∈ l, p c = false) : splitAux p l = (l, []) := by
  induction l with
  | nil => rfl
  | cons c t ih =>
    unfold splitAux
    rw [ih (fun d hd => h d (List.mem_cons_of_mem c hd))]
    rw [if_neg (by simp [h c (List.mem_cons_self c t)])]

theorem splitAux_append_sep (p : Char → Bool) (l1 l2 : List Char) (d : Char)
    (h1 : ∀ c ∈ l1, p c = false) (hd : p d = true)
    (h2 : ∀ c ∈ l2, p c = false) :
    splitAux p (l1 ++ d :: l2) = (l1, [l2]) := by
  induction l1 with
  | nil =>
    simp only [List.nil_append]
    unfold splitAux
    rw [splitAux_no_split p l2 h2, if_pos hd]
  | cons c t ih =>
    simp only [List.cons_append]
    unfold splitAux
    rw [ih (fun x hx => h1 x (List.mem_cons_of_mem c hx))]
    rw [if_neg (by simp [h1 c (List.mem_cons_self c t)])]

theorem dropWhile_eq_self_of (p : Char → Bool) (l : List Char)
    (h : ∀ c ∈ l, p c = false) : l.dropWhile p = l := by
  cases l with
  | nil => rfl
  | cons c t =>
    rw [List.dropWhile_cons, if_neg (by simp [h c (List.mem_cons_self c t)])]

theorem pyStrip_eq_self (l : List Char) (h : ∀ c ∈ l, pyWS c = false) :
    pyStrip l = l := by
  unfold pyStrip
  rw [dropWhile_eq_self_of pyWS l h,
    dropWhile_eq_self_of pyWS l.reverse
      (fun c hc => h c (List.mem_reverse.mp hc)),
    List.reverse_reverse]

theorem filter_dropWhileWS (keep : Char → Bool) (l : List Char)
    (h : ∀ c ∈ l, pyWS c = true → keep c = false) :
    (l.dropWhile pyWS).filter keep = l.filter keep := by
  induction l with
  | nil => rfl
  | cons c t ih =>
    by_cases hc : pyWS c
    · rw [List.dropWhile_cons, if_pos hc,
        ih (fun x hx hw => h x (List.mem_cons_of_mem c hx) hw),
        List.filter_cons_of_neg (by simp [h c (List.mem_cons_self c t) hc])]
    · rw [List.dropWhile_cons, if_neg hc]

theorem filter_pyStrip (keep : Char → Bool) (l : List Char)
    (h : ∀ c ∈ l, pyWS c = true → keep c = false) :
    (pyStrip l).filter keep = l.filter keep := by
  unfold pyStrip
  have hsub : ∀ c ∈ (l.dropWhile pyWS).reverse, c ∈ l := by
    intro c hc
    exact (List.dropWhile_sublist pyWS).subset (List.mem_reverse.mp hc)
  rw [List.filter_reverse,
    filter_dropWhileWS keep _ (fun c hc hw => h c (hsub c hc) hw),
    List.filter_reverse, List.reverse_reverse, filter_dropWhileWS keep l h]

theorem mem_joinSep {c gch : Char} {groups : List (List Char)}
    (h : c ∈ joinSep [gch] groups) : c = gch ∨ ∃ g ∈ groups, c ∈ g := by
  induction groups with
  | nil => simp [joinSep] at h
  | cons g rest ih =>
    cases rest with
    | nil =>
      right
      exact ⟨g, List.mem_cons_self g [], by simpa [joinSep] using h⟩
    | cons g2 r2 =>
      rw [show joinSep [gch] (g :: g2 :: r2) =
        g ++ [gch] ++ joinSep [gch] (g2 :: r2) from rfl] at h
      rcases List.mem_append.mp h with hl | hr
      · rcases List.mem_append.mp hl with hg | hs
        · exact Or.inr ⟨g, List.mem_cons_self g _, hg⟩
        · exact Or.inl (by simpa using hs)
      · rcases ih hr with he | ⟨g3, hg3, hc3⟩
        · exact Or.inl he
        · exact Or.inr ⟨g3, List.mem_cons_of_mem g hg3, hc3⟩

theorem filter_joinSep (keep : Char → Bool) (gch : Char)
    (groups : List (List Char)) (hg : keep gch = false)
    (hdig : ∀ g ∈ groups, g.filter keep = g) :
    (joinSep [gch] groups).filter keep = groups.flatten := by
  induction groups with
  | nil => rfl
  | cons g rest ih =>
    cases rest with
    | nil =>
      show (joinSep [gch] [g]).filter keep = g ++ [].flatten
      simp [joinSep, hdig g (List.mem_cons_self g [])]
    | cons g2 r2 =>
      rw [show joinSep [gch] (g :: g2 :: r2) =
        g ++ [gch] ++ joinSep [gch] (g2 :: r2) from rfl]
      rw [List.filter_append, List.filter_append,
        hdig g (List.mem_cons_self g _),
        ih (fun x hx => hdig x (List.mem_cons_of_mem g hx)),
        List.filter_cons_of_neg (by simp [hg])]
      simp

theorem allDigits_mem {l : List Char} (h : allDigits l = true) :
    ∀ c ∈ l, isDigitC c = true := List.all_eq_true.mp h

theorem stripSign_digit_head {i0 : Char} (rest : List Char)
    (h : isDigitC i0 = true) : stripSign (i0 :: rest) = (false, i0 :: rest) := by
  show (if i0 = '-' then (true, rest)
    else if i0 = '+' then (false, rest) else (false, i0 :: rest)) = _
  rw [if_neg (digit_ne h '-' (by decide)),
    if_neg (digit_ne h '+' (by decide))]

theorem lcMatches_false_digit_head (p : Char) (ps : List Char) {c : Char}
    (t : List Char) (hd : isDigitC c = true)
    (hp : p.toNat < 48 ∨ 57 < p.toNat) :
    lcMatches (p :: ps) (c :: t) = false := by
  have h1 : pyLowerChar c = c := pyLowerChar_digit hd
  have h2 : c ≠ p := digit_ne hd p hp
  simp [lcMatches, h1, h2]

theorem lcStarts_false_digit_head (p : Char) (ps : List Char) {c : Char}
    (t : List Char) (hd : isDigitC c = true)
    (hp : p.toNat < 48 ∨ 57 < p.toNat) :
    lcStarts (p :: ps) (c :: t) = false := by
  have h1 : pyLowerChar c = c := pyLowerChar_digit hd
  have h2 : c ≠ p := digit_ne hd p hp
  simp [lcStarts, h1, h2]

theorem splitOnP_no_split (p : Char → Bool) (l : List Char)
    (h : ∀ c ∈ l, p c = false) : splitOnP p l = [l] := by
  unfold splitOnP
  rw [splitAux_no_split p l h]

theorem splitOnP_append_sep (p : Char → Bool) (l1 l2 : List Char) (d : Char)
    (h1 : ∀ c ∈ l1, p c = false) (hd : p d = true)
    (h2 : ∀ c ∈ l2, p c = false) :
    splitOnP p (l1 ++ d :: l2) = [l1, l2] := by
  unfold splitOnP
  rw [splitAux_append_sep p l1 l2 d h1 hd h2]

theorem parseMantissa_canonical (ints frac : List Char)
    (hi : allDigits ints = true) (hinz : ints ≠ [])
    (hf : allDigits frac = true) :
    parseMantissa (ints ++ '.' :: frac) =
      some (mkRat (digitsVal ints * 10 ^ frac.length + digitsVal frac)
        (10 ^ frac.length)) := by
  unfold parseMantissa
  rw [splitOnP_append_sep isDot ints frac '.'
    (fun c hc => isDot_false_of_digit (allDigits_mem hi c hc)) (by decide)
    (fun c hc => isDot_false_of_digit (allDigits_mem hf c hc))]
  show (if allDigits ints = true ∧ allDigits frac = true ∧
      (ints ≠ [] ∨ frac ≠ []) then
    some (mkRat (digitsVal ints * 10 ^ frac.length + digitsVal frac)
      (10 ^ frac.length))
    else none) = _
  rw [if_pos ⟨hi, hf, Or.inl hinz⟩]

theorem body_no_e (ints frac : List Char) (hi : allDigits ints = true)
    (hf : allDigits frac = true) :
    ∀ c ∈ ints ++ '.' :: frac, isE c = false := by
  intro c hc
  rcases List.mem_append.mp hc with hl | hr
  · exact isE_false_of_digit (allDigits_mem hi c hl)
  · rcases List.mem_cons.mp hr with rfl | hfm
    · decide
    · exact isE_false_of_digit (allDigits_mem hf c hfm)

theorem pyDecCore_canonical (neg : Bool) (ints frac : List Char)
    (hi : allDigits ints = true) (hinz : ints ≠ [])
    (hf : allDigits frac = true) :
    pyDecCore ((if neg then ['-'] else []) ++ ints ++ '.' :: frac) =
      some (.num (if neg then
        -(mkRat (digitsVal ints * 10 ^ frac.length + digitsVal frac)
          (10 ^ frac.length))
        else mkRat (digitsVal ints * 10 ^ frac.length + digitsVal frac)
          (10 ^ frac.length))) := by
  obtain ⟨i0, irest, rfl⟩ : ∃ i0 irest, ints = i0 :: irest := by
    cases ints with
    | nil => exact absurd rfl hinz
    | cons a b => exact ⟨a, b, rfl⟩
  have hdi0 : isDigitC i0 = true :=
    allDigits_mem hi i0 (List.mem_cons_self i0 irest)
  have hss : stripSign ((if neg then ['-'] else []) ++
      (i0 :: irest) ++ '.' :: frac) =
      (neg, (i0 :: irest) ++ '.' :: frac) := by
    cases neg with
    | false =>
      simp only [Bool.false_eq_true, if_false, List.nil_append,
        List.cons_append]
      rw [stripSign_digit_head _ hdi0]
    | true =>
      simp only [if_true, List.cons_append, List.nil_append]
      show (if '-' = '-' then (true, i0 :: (irest ++ '.' :: frac))
        else if '-' = '+' then (false, i0 :: (irest ++ '.' :: frac))
        else (false, '-' :: i0 :: (irest ++ '.' :: frac))) = _
      rw [if_pos rfl]
  show (if lcMatches ("inf".toList)
        (stripSign ((if neg then ['-'] else []) ++
          (i0 :: irest) ++ '.' :: frac)).2 ||
      lcMatches ("infinity".toList)
        (stripSign ((if neg then ['-'] else []) ++
          (i0 :: irest) ++ '.' :: frac)).2 then
      some (PyDec.inf (stripSign ((if neg then ['-'] else []) ++
        (i0 :: irest) ++ '.' :: frac)).1)
    else if lcStarts ("nan".toList)
        (stripSign ((if neg then ['-'] else []) ++
          (i0 :: irest) ++ '.' :: frac)).2 then
      (if allDigits ((stripSign ((if neg then ['-'] else []) ++
          (i0 :: irest) ++ '.' :: frac)).2.drop 3) then some PyDec.nan
       else none)
    else if lcStarts ("snan".toList)
        (stripSign ((if neg then ['-'] else []) ++
          (i0 :: irest) ++ '.' :: frac)).2 then
      (if allDigits ((stripSign ((if neg then ['-'] else []) ++
          (i0 :: irest) ++ '.' :: frac)).2.drop 4) then some PyDec.snan
       else none)
    else match splitOnP isE (stripSign ((if neg then ['-'] else []) ++
        (i0 :: irest) ++ '.' :: frac)).2 with
      | [m] => (parseMantissa m).map (fun q => PyDec.num
          (if (stripSign ((if neg then ['-'] else []) ++
            (i0 :: irest) ++ '.' :: frac)).1 then -q else q))
      | [m, ex] =>
        match parseMantissa m, parseExp ex with
        | some q, some k => some (PyDec.num
            (if (stripSign ((if neg then ['-'] else []) ++
              (i0 :: irest) ++ '.' :: frac)).1 then
              -(applyExp q k) else applyExp q k))
        | _, _ => none
      | _ => none) = _
  rw [hss]
  simp only [List.cons_append]
  rw [show "inf".toList = ['i', 'n', 'f'] from rfl,
    show "infinity".toList = ['i', 'n', 'f', 'i', 'n', 'i', 't', 'y'] from rfl,
    show "nan".toList = ['n', 'a', 'n'] from rfl,
    show "snan".toList = ['s', 'n', 'a', 'n'] from rfl]
  rw [lcMatches_false_digit_head 'i' _ _ hdi0 (by decide),
    lcMatches_false_digit_head 'i' _ _ hdi0 (by decide),
    lcStarts_false_digit_head 'n' _ _ hdi0 (by decide),
    lcStarts_false_digit_head 's' _ _ hdi0 (by decide)]
  simp only [Bool.or_self, Bool.false_eq_true, if_false]
  rw [show (i0 :: (irest ++ '.' :: frac)) =
    ((i0 :: irest) ++ '.' :: frac) from rfl]
  rw [splitOnP_no_split isE _ (body_no_e (i0 :: irest) frac hi hf)]
  show (parseMantissa ((i0 :: irest) ++ '.' :: frac)).map
      (fun q => PyDec.num (if neg then -q else q)) = _
  rw [parseMantissa_canonical (i0 :: irest) frac hi hinz hf]
  cases neg with
  | false => simp
  | true => simp

theorem allDigits_tail {c : Char} {t : List Char}
    (h : allDigits (c :: t) = true) : isDigitC c = true ∧ allDigits t = true := by
  have h2 : (isDigitC c && allDigits t) = true := h
  simpa using h2

theorem allDigits_flatten {groups : List (List Char)}
    (h : ∀ g ∈ groups, allDigits g = true) :
    allDigits groups.flatten = true := by
  rw [show allDigits groups.flatten = groups.flatten.all isDigitC from rfl,
    List.all_eq_true]
  intro c hc
  obtain ⟨g, hg, hcg⟩ := List.mem_flatten.mp hc
  exact allDigits_mem (h g hg) c hcg

theorem map_cd_digits (l : List Char) (h : allDigits l = true) :
    l.map (fun c => if c = ',' then '.' else c) = l := by
  induction l with
  | nil => rfl
  | cons c t ih =>
    obtain ⟨hc, ht⟩ := allDigits_tail h
    rw [List.map_cons, if_neg (digit_ne hc ',' (by decide)), ih ht]

theorem filter_keep_digits (keep : Char → Bool) (l : List Char)
    (h : allDigits l = true) (hk : ∀ c, isDigitC c = true → keep c = true) :
    l.filter keep = l :=
  List.filter_eq_self.mpr (fun c hc => hk c (allDigits_mem h c hc))

theorem unfold_parse_decimal_jstr (cs : List Char) :
    parse_decimal (.jstr (String.mk cs)) =
      (match pyDecimal (((pyStrip cs).filter
        (fun c => c ≠ ' ' ∧ c ≠ '\u00A0')).map
        (fun c => if c = ',' then '.' else c)) with
      | some d => d
      | none => PyDec.num 0) := rfl

theorem C8_big (neg : Bool) (groups : List (List Char)) (gch sep : Char)
    (frac : List Char)
    (hgnz : groups ≠ []) (hgs : ∀ g ∈ groups, g ≠ [] ∧ allDigits g = true)
    (hgch : gch = ' ' ∨ gch = '\u00A0') (hsep : sep = ',' ∨ sep = '.')
    (hf : allDigits frac = true) :
    parse_decimal (.jstr (String.mk
      (specDecimalString neg groups gch sep frac))) =
      .num (specDecimalValue neg groups frac) := by
  have hdigs : ∀ g ∈ groups, allDigits g = true := fun g hg => (hgs g hg).2
  have hflat : allDigits groups.flatten = true := allDigits_flatten hdigs
  have hflatnz : groups.flatten ≠ [] := by
    cases groups with
    | nil => exact absurd rfl hgnz
    | cons g rest =>
      have hg := (hgs g (List.mem_cons_self g rest)).1
      cases hgg : g with
      | nil => exact absurd hgg hg
      | cons x xs => simp [List.flatten, hgg]
  have hclass : ∀ c ∈ specDecimalString neg groups gch sep frac,
      c = '-' ∨ isDigitC c = true ∨ c = gch ∨ c = sep := by
    intro c hc
    unfold specDecimalString at hc
    rcases List.mem_append.mp hc with h1 | hfr
    · rcases List.mem_append.mp h1 with h2 | hs
      · rcases List.mem_append.mp h2 with hsign | hjoin
        · left
          cases neg with
          | true => simpa using hsign
          | false => simp at hsign
        · rcases mem_joinSep hjoin with he | ⟨g, hg, hcg⟩
          · exact Or.inr (Or.inr (Or.inl he))
          · exact Or.inr (Or.inl (allDigits_mem (hdigs g hg) c hcg))
      · right; right; right
        simpa using hs
    · exact Or.inr (Or.inl (allDigits_mem hf c hfr))
  have hstrip : (pyStrip (specDecimalString neg groups gch sep frac)).filter
      (fun c => c ≠ ' ' ∧ c ≠ '\u00A0') =
      (specDecimalString neg groups gch sep frac).filter
      (fun c => c ≠ ' ' ∧ c ≠ '\u00A0') := by
    apply filter_pyStrip
    intro c hc hw
    rcases hclass c hc with rfl | hd | rfl | rfl
    · exact absurd hw (by decide)
    · exact absurd hw (by simp [pyWS_false_of_digit hd])
    · rcases hgch with rfl | rfl <;> decide
    · rcases hsep with rfl | rfl <;> exact absurd hw (by decide)
  have hjoinf : (joinSep [gch] groups).filter
      (fun c => c ≠ ' ' ∧ c ≠ '\u00A0') = groups.flatten := by
    refine filter_joinSep _ gch groups ?_ ?_
    · rcases hgch with rfl | rfl <;> decide
    · intro g hg
      refine filter_keep_digits _ g (hdigs g hg) ?_
      intro c hcd
      exact decide_eq_true
        ⟨digit_ne hcd ' ' (by decide), digit_ne hcd '\u00A0' (by decide)⟩
  have hfilter : (specDecimalString neg groups gch sep frac).filter
      (fun c => c ≠ ' ' ∧ c ≠ '\u00A0') =
      (if neg then ['-'] else []) ++ groups.flatten ++ [sep] ++ frac := by
    unfold specDecimalString
    rw [List.filter_append, List.filter_append, List.filter_append]
    rw [show ((if neg then ['-'] else []) : List Char).filter
      (fun c => c ≠ ' ' ∧ c ≠ '\u00A0') = (if neg then ['-'] else []) from
      by cases neg <;> decide]
    rw [hjoinf]
    rw [show ([sep] : List Char).filter (fun c => c ≠ ' ' ∧ c ≠ '\u00A0') =
      [sep] from by rcases hsep with rfl | rfl <;> decide]
    rw [filter_keep_digits _ frac hf (fun c hcd => decide_eq_true
      ⟨digit_ne hcd ' ' (by decide), digit_ne hcd '\u00A0' (by decide)⟩)]
  have hmap : ((if neg then ['-'] else []) ++ groups.flatten ++ [sep] ++
      frac).map (fun c => if c = ',' then '.' else c) =
      (if neg then ['-'] else []) ++ groups.flatten ++ '.' :: frac := by
    rw [List.map_append, List.map_append, List.map_append]
    rw [map_cd_digits groups.flatten hflat, map_cd_digits frac hf]
    rw [show ((if neg then ['-'] else []) : List Char).map
      (fun c => if c = ',' then '.' else c) = (if neg then ['-'] else [])
      from by cases neg <;> decide]
    rw [show ([sep] : List Char).map (fun c => if c = ',' then '.' else c) =
      ['.'] from by rcases hsep with rfl | rfl <;> decide]
    simp
  have hdec : pyDecimal ((if neg then ['-'] else []) ++ groups.flatten ++
      '.' :: frac) = some (.num (if neg then
        -(mkRat (digitsVal groups.flatten * 10 ^ frac.length +
          digitsVal frac) (10 ^ frac.length))
        else mkRat (digitsVal groups.flatten * 10 ^ frac.length +
          digitsVal frac) (10 ^ frac.length))) := by
    unfold pyDecimal
    have hnws : ∀ c ∈ (if neg then ['-'] else []) ++ groups.flatten ++
        '.' :: frac, pyWS c = false := by
      intro c hc
      rcases List.mem_append.mp hc with h1 | h2
      · rcases List.mem_append.mp h1 with hsign | hflt
        · cases neg with
          | true =>
            have hcm : c = '-' := by simpa using hsign
            subst hcm
            decide
          | false => simp at hsign
        · exact pyWS_false_of_digit (allDigits_mem hflat c hflt)
      · rcases List.mem_cons.mp h2 with rfl | hfm
        · decide
        · exact pyWS_false_of_digit (allDigits_mem hf c hfm)
    rw [pyStrip_eq_self _ hnws]
    have hnus : ((if neg then ['-'] else []) ++ groups.flatten ++
        '.' :: frac).filter (fun c => c ≠ '_') =
        (if neg then ['-'] else []) ++ groups.flatten ++ '.' :: frac := by
      refine List.filter_eq_self.mpr ?_
      intro c hc
      rcases List.mem_append.mp hc with h1 | h2
      · rcases List.mem_append.mp h1 with hsign | hflt
        · cases neg with
          | true =>
            have hcm : c = '-' := by simpa using hsign
            subst hcm
            decide
          | false => simp at hsign
        · exact decide_eq_true
            (digit_ne (allDigits_mem hflat c hflt) '_' (by decide))
      · rcases List.mem_cons.mp h2 with rfl | hfm
        · decide
        · exact decide_eq_true
            (digit_ne (allDigits_mem hf c hfm) '_' (by decide))
    rw [hnus]
    have hcan := pyDecCore_canonical neg groups.flatten frac hflat hflatnz hf
    rw [show (if neg then ['-'] else []) ++ groups.flatten ++ '.' :: frac =
      (if neg then ['-'] else []) ++ (groups.flatten ++ '.' :: frac) from
      by simp] at hcan ⊢
    exact hcan
  rw [unfold_parse_decimal_jstr, hstrip, hfilter, hmap, hdec]
  unfold specDecimalValue
  cases neg with
  | false => rfl
  | true => rfl

/-- C8 amended: `parse_decimal` is total (never raises); `None` yields 0;
strings the `Decimal` numeric-string grammar rejects yield 0; every
decimal-valued string using `,` or `.` as decimal separator with optional
space or non-breaking-space thousands grouping parses to the exact
intended value (`specDecimalString` / `specDecimalValue` formalize the
spec's wording); but NaN- and Infinity-form strings are accepted by
`Decimal` and produce the special non-finite values, not an exact decimal
and not 0. -/
theorem C8_amended_normalizer :
    parse_decimal .jnull = .num 0 ∧
    parse_decimal (.jstr "garbage") = .num 0 ∧
    parse_decimal (.jstr "nan") = PyDec.nan ∧
    parse_decimal (.jstr "Infinity") = PyDec.inf false ∧
    (∀ (neg : Bool) (groups : List (List Char)) (gch sep : Char)
      (frac : List Char),
      groups ≠ [] → (∀ g ∈ groups, g ≠ [] ∧ allDigits g = true) →
      (gch = ' ' ∨ gch = '\u00A0') → (sep = ',' ∨ sep = '.') →
      frac ≠ [] → allDigits frac = true →
      parse_decimal (.jstr (String.mk
        (specDecimalString neg groups gch sep frac))) =
        .num (specDecimalValue neg groups frac)) := by
  refine ⟨by decide, by decide, by decide, by decide, ?_⟩
  intro neg groups gch sep frac hgnz hgs hgch hsep hfnz hf
  exact C8_big neg groups gch sep frac hgnz hgs hgch hsep hf

/-- C8 witness: the grouped string "1 234,56" parses to exactly
1234.56. -/
theorem C8_witness :
    String.mk (specDecimalString false [['1'], ['2', '3', '4']] ' ' ','
      ['5', '6']) = "1 234,56" ∧
    parse_decimal (.jstr (String.mk (specDecimalString false
      [['1'], ['2', '3', '4']] ' ' ',' ['5', '6']))) =
      .num (specDecimalValue false [['1'], ['2', '3', '4']] ['5', '6']) ∧
    specDecimalValue false [['1'], ['2', '3', '4']] ['5', '6'] =
      mkRat 123456 100 := by
  refine ⟨by decide, ?_, by decide⟩
  exact C8_amended_normalizer.2.2.2.2 false [['1'], ['2', '3', '4']] ' ' ','
    ['5', '6'] (by decide) (by decide) (Or.inl rfl) (Or.inl rfl)
    (by decide) (by decide)
